import Mathlib

namespace Coldstar

/-!
Verification of the coldstar air-gapped cold wallet (Python) against its
natural-language specification.

Conventions of the shallow embedding:

* Python `bytes` values are modelled as `List Nat`, each element `< 256`.
* Python `str` values that the code inspects character by character are
  modelled as `List Char`.
* Python `int` is arbitrary precision, so it is modelled as `Int`
  (or `Nat` where the source value is manifestly non-negative).
* Fallible Python code (`try`/`except` returning `None`) is modelled with
  `Option`.
* The `json.dumps`/`json.loads` text layer is abstracted: a serialized
  JSON object is modelled as an association list of string keys and
  scalar JSON values, which is exactly the data the Python dict holds
  before dumping and after loading.
-/

/-! ## Hexadecimal encoding (Python `bytes.hex` / `bytes.fromhex`) -/

/-- Lowercase hex digit character for a value `< 16`, as produced by
Python's `bytes.hex()` and `hex()`. -/
def hexDigitChar (n : Nat) : Char :=
  if n < 10 then Char.ofNat (48 + n) else Char.ofNat (87 + n)

/-- Value of a hex digit character; Python's `bytes.fromhex` accepts both
cases. -/
def hexDigitVal (c : Char) : Option Nat :=
  if 48 ≤ c.toNat ∧ c.toNat ≤ 57 then some (c.toNat - 48)
  else if 97 ≤ c.toNat ∧ c.toNat ≤ 102 then some (c.toNat - 87)
  else if 65 ≤ c.toNat ∧ c.toNat ≤ 70 then some (c.toNat - 55)
  else none

/-- Is `c` a hexadecimal digit (either case)? -/
def isHexDigitChar (c : Char) : Bool :=
  (hexDigitVal c).isSome

/-- `bytes.hex()`: two lowercase hex digits per byte. -/
def bytesHex : List Nat → List Char
  | [] => []
  | b :: rest => hexDigitChar (b / 16) :: hexDigitChar (b % 16) :: bytesHex rest

/-- `bytes.fromhex`: parses two hex digits per byte, allowing ASCII spaces
between bytes; any other shape raises `ValueError`, modelled as `none`. -/
def bytesFromhex : List Char → Option (List Nat)
  | [] => some []
  | c1 :: rest =>
    if c1 = ' ' then bytesFromhex rest
    else
      match rest with
      | [] => none
      | c2 :: rest2 =>
        match hexDigitVal c1, hexDigitVal c2, bytesFromhex rest2 with
        | some d1, some d2, some bs => some ((16 * d1 + d2) :: bs)
        | _, _, _ => none

/-! ## Base64 (Python `base64.b64encode` / `base64.b64decode`) -/

/-- The standard base64 alphabet. -/
def b64AlphabetChars : List Char :=
  "ABCDEFGHIJKLMNOPQRSTUVWXYZabcdefghijklmnopqrstuvwxyz0123456789+/".toList

/-- Character for a sextet value `< 64`. -/
def b64Char (n : Nat) : Char := b64AlphabetChars.getD n '?'

/-- Sextet value of an alphabet character. -/
def b64Index (c : Char) : Option Nat := b64AlphabetChars.indexOf? c

/-- `base64.b64encode`: three bytes become four characters; a short final
group is padded with `=`. -/
def b64encode : List Nat → List Char
  | [] => []
  | [b0] => [b64Char (b0 / 4), b64Char (b0 % 4 * 16), '=', '=']
  | [b0, b1] => [b64Char (b0 / 4), b64Char (b0 % 4 * 16 + b1 / 16), b64Char (b1 % 16 * 4), '=']
  | b0 :: b1 :: b2 :: rest =>
    b64Char (b0 / 4) :: b64Char (b0 % 4 * 16 + b1 / 16) ::
      b64Char (b1 % 16 * 4 + b2 / 64) :: b64Char (b2 % 64) :: b64encode rest

/-- Decode groups of four characters, accepting `=` padding only at the
end; a leftover group of fewer than four characters is an error, as in
`binascii.a2b_base64`. -/
def b64decodeGroups : List Char → Option (List Nat)
  | [] => some []
  | c1 :: c2 :: c3 :: c4 :: rest =>
    match b64Index c1, b64Index c2 with
    | some s1, some s2 =>
      if c3 = '=' then
        if c4 = '=' ∧ rest = [] then some [s1 * 4 + s2 / 16] else none
      else
        match b64Index c3 with
        | some s3 =>
          if c4 = '=' then
            if rest = [] then some [s1 * 4 + s2 / 16, s2 % 16 * 16 + s3 / 4] else none
          else
            match b64Index c4, b64decodeGroups rest with
            | some s4, some bs =>
              some ((s1 * 4 + s2 / 16) :: (s2 % 16 * 16 + s3 / 4) :: (s3 % 4 * 64 + s4) :: bs)
            | _, _ => none
        | none => none
    | _, _ => none
  | _ => none

/-- `base64.b64decode` (with its default `validate=False`): characters
outside the alphabet and `=` are discarded before decoding. -/
def b64decode (cs : List Char) : Option (List Nat) :=
  b64decodeGroups (cs.filter fun c => (b64Index c).isSome || c == '=')

/-! ## Numbers as digit strings (Python `hex(n)`, `str.zfill`, `str.lower`) -/

/-- Python `str.lower`, restricted to ASCII (all this code ever feeds it). -/
def asciiLower (c : Char) : Char :=
  if 65 ≤ c.toNat ∧ c.toNat ≤ 90 then Char.ofNat (c.toNat + 32) else c

/-- Big-endian base-16 digits of `n`, minimal length, `[0]` for zero —
the digit list underlying Python's `hex(n)[2:]`. -/
def natHexBE (n : Nat) : List Nat :=
  if _h : n < 16 then [n] else natHexBE (n / 16) ++ [n % 16]
termination_by n
decreasing_by exact Nat.div_lt_self (by omega) (by omega)

/-- Python `hex(n)[2:]` for a non-negative `n`. -/
def pyHexStr (n : Nat) : List Char := (natHexBE n).map hexDigitChar

/-- Python `str.zfill(w)` for a string with no sign character. -/
def zfill (w : Nat) (s : List Char) : List Char :=
  List.replicate (w - s.length) '0' ++ s

/-- Value of a big-endian base-16 digit list. -/
def hexValBE (ds : List Nat) : Nat := ds.foldl (fun a d => 16 * a + d) 0

/-- Value of a big-endian byte list. -/
def beNat (bs : List Nat) : Nat := bs.foldl (fun a b => 256 * a + b) 0

/-- Combine a big-endian hex digit list two digits at a time into bytes. -/
def pairBytes : List Nat → List Nat
  | [] => []
  | [_] => []
  | d1 :: d2 :: rest => (16 * d1 + d2) :: pairBytes rest

/-- Group a character list in twos; used only as an induction template. -/
def pairChars : List Char → List (Char × Char)
  | [] => []
  | [_] => []
  | c1 :: c2 :: rest => (c1, c2) :: pairChars rest

/-! ## Configuration constants (`config.py`) -/

def BASE_CHAIN_ID : Int := 8453

def BASE_TESTNET_CHAIN_ID : Int := 84532

def WEI_PER_ETH : Int := 10 ^ 18

def GWEI_PER_ETH : Int := 10 ^ 9

def LAMPORTS_PER_SOL : Int := 1000000000

/-! ## EVM transactions (`src/evm_transaction.py`)

The unsigned transaction is a Python dict with fixed keys in insertion
order `type, chainId, nonce, to, value, gas, maxFeePerGas,
maxPriorityFeePerGas, data`; it is modelled as a structure plus the
corresponding ordered association list. -/

/-- A Python value as stored in the unsigned-transaction dict. -/
inductive PyVal where
  | int (i : Int)
  | str (s : List Char)
  | bytes (bs : List Nat)
deriving DecidableEq, Repr

/-- A scalar JSON value, the wire form of a dict entry after
`json.dumps`/`json.loads`. -/
inductive JVal where
  | int (i : Int)
  | str (s : List Char)
deriving DecidableEq, Repr

/-- An unsigned EIP-1559 transaction as built by `EVMTransactionManager`. -/
structure EVMTx where
  txType : Int
  chainId : Int
  nonce : Int
  toAddr : List Char
  value : Int
  gas : Int
  maxFeePerGas : Int
  maxPriorityFeePerGas : Int
  data : List Nat
deriving DecidableEq, Repr

/-- The transaction dict in insertion order, exactly as
`create_eth_transfer`/`create_erc20_transfer` build it. -/
def EVMTx.items (tx : EVMTx) : List (String × PyVal) :=
  [("type", .int tx.txType), ("chainId", .int tx.chainId), ("nonce", .int tx.nonce),
   ("to", .str tx.toAddr), ("value", .int tx.value), ("gas", .int tx.gas),
   ("maxFeePerGas", .int tx.maxFeePerGas),
   ("maxPriorityFeePerGas", .int tx.maxPriorityFeePerGas), ("data", .bytes tx.data)]

/-- `EVMTransactionManager.create_eth_transfer`.  The Python function
multiplies a float ETH amount by `WEI_PER_ETH`; it is modelled at the
integer-representable amounts the claims evaluate (where the float
product is exact).  The body validates nothing and cannot raise, so the
surrounding `try`/`except` never returns `None` and the transaction dict
is always produced. -/
def create_eth_transfer (chainId : Int) (to_address : List Char) (amount_eth : Int)
    (nonce max_fee_per_gas max_priority_fee_per_gas gas_limit : Int) : Option EVMTx :=
  some
    { txType := 2
      chainId := chainId
      nonce := nonce
      toAddr := to_address
      value := amount_eth * WEI_PER_ETH
      gas := gas_limit
      maxFeePerGas := max_fee_per_gas
      maxPriorityFeePerGas := max_priority_fee_per_gas
      data := [] }

/-- `EVMTransactionManager.create_erc20_transfer`.  Encodes the
`transfer(address,uint256)` call: selector `a9059cbb`, the recipient's
40 hex digits lowercased and zero-filled to 64, and the amount's hex
digits zero-filled to 64; `bytes.fromhex` failure (malformed address)
hits the `except` branch and returns `None`. -/
def create_erc20_transfer (chainId : Int) (token_address to_address : List Char)
    (amount_raw : Nat) (nonce max_fee_per_gas max_priority_fee_per_gas gas_limit : Int) :
    Option EVMTx :=
  let padded_to := zfill 64 ((to_address.drop 2).map asciiLower)
  let padded_amount := zfill 64 (pyHexStr amount_raw)
  match bytesFromhex ("a9059cbb".toList ++ padded_to ++ padded_amount) with
  | some data =>
    some
      { txType := 2
        chainId := chainId
        nonce := nonce
        toAddr := token_address
        value := 0
        gas := gas_limit
        maxFeePerGas := max_fee_per_gas
        maxPriorityFeePerGas := max_priority_fee_per_gas
        data := data }
  | none => none

/-- One entry of `serialize_unsigned_tx`'s loop: bytes become a
`0x`-prefixed hex string, ints and strings pass through. -/
def serializeEntry : PyVal → JVal
  | .bytes bs => .str ('0' :: 'x' :: bytesHex bs)
  | .int i => .int i
  | .str s => .str s

/-- `EVMTransactionManager.serialize_unsigned_tx` (the compact-JSON text
layer of `json.dumps` is abstracted into the entry list). -/
def serialize_unsigned_tx (tx : List (String × PyVal)) : List (String × JVal) :=
  tx.map fun e => (e.1, serializeEntry e.2)

/-- Does a character list start with `0x`? (Python `str.startswith`.) -/
def startsWith0x : List Char → Bool
  | c0 :: c1 :: _ => c0 == '0' && c1 == 'x'
  | _ => false

/-- One entry of `deserialize_unsigned_tx`: only a string under the
`"data"` key is touched — converted from hex if it starts with `0x`
(a hex error propagates to the `except` branch), silently replaced by
`b""` otherwise. -/
def deserializeEntry (e : String × JVal) : Option (String × PyVal) :=
  match e.2 with
  | .int i => some (e.1, .int i)
  | .str s =>
    if e.1 = "data" then
      if startsWith0x s then
        match bytesFromhex (s.drop 2) with
        | some bs => some ("data", .bytes bs)
        | none => none
      else some ("data", .bytes [])
    else some (e.1, .str s)

/-- `EVMTransactionManager.deserialize_unsigned_tx`. -/
def deserialize_unsigned_tx (wire : List (String × JVal)) :
    Option (List (String × PyVal)) :=
  match wire with
  | [] => some []
  | e :: rest =>
    match deserializeEntry e, deserialize_unsigned_tx rest with
    | some e2, some rest2 => some (e2 :: rest2)
    | _, _ => none

/-! ## Solana transaction files (`src/transaction.py`) -/

/-- The JSON record written by `TransactionManager.save_unsigned_transaction`. -/
structure SolTxFile where
  fileType : List Char
  version : List Char
  data : List Char
deriving DecidableEq, Repr

/-- `TransactionManager.save_unsigned_transaction` (file-system layer
abstracted to the record written). -/
def save_unsigned_transaction (tx_bytes : List Nat) : SolTxFile :=
  { fileType := "unsigned_transaction".toList
    version := "1.0".toList
    data := b64encode tx_bytes }

/-- `TransactionManager.load_unsigned_transaction`: rejects a wrong
`type` tag, otherwise base64-decodes the payload. -/
def load_unsigned_transaction (f : SolTxFile) : Option (List Nat) :=
  if f.fileType = "unsigned_transaction".toList then b64decode f.data
  else none

/-! ## EVM address validation (`src/evm_wallet.py`, `validate_address`)

`EVMWalletManager.validate_address` checks the `0x` prefix, the length
42, and then calls Python's `int(address, 16)`.  The `int` parser is
modelled for ASCII input: it strips surrounding ASCII whitespace,
accepts an optional sign, an optional `0x`/`0X` base marker, and hex
digits with single underscores between digits (and one allowed directly
after the base marker). -/

/-- ASCII whitespace stripped by Python's `int` parser: space, tab,
newline, carriage return, vertical tab, form feed. -/
def isPyWhitespace (c : Char) : Bool :=
  c.toNat == 32 || c.toNat == 9 || c.toNat == 10 || c.toNat == 13 ||
    c.toNat == 11 || c.toNat == 12

/-- Strip leading and trailing whitespace. -/
def stripPyWs (cs : List Char) : List Char :=
  ((cs.dropWhile isPyWhitespace).reverse.dropWhile isPyWhitespace).reverse

/-- Strip one optional leading sign. -/
def pyStripSign : List Char → List Char
  | [] => []
  | c :: r => if c = '+' ∨ c = '-' then r else c :: r

/-- Strip a `0x`/`0X` base marker, if present. -/
def pyStrip0x : List Char → Option (List Char)
  | c0 :: c1 :: r => if c0 = '0' ∧ (c1 = 'x' ∨ c1 = 'X') then some r else none
  | _ => none

/-- Hex digits with single underscores between digits, continuing a
digit run. -/
def hexTailChars : List Char → Bool
  | [] => true
  | c :: rest =>
    if c = '_' then
      match rest with
      | [] => false
      | c2 :: rest2 => isHexDigitChar c2 && hexTailChars rest2
    else isHexDigitChar c && hexTailChars rest

/-- A non-empty underscore-separated hex digit run. -/
def hexBodyChars : List Char → Bool
  | [] => false
  | c :: rest => isHexDigitChar c && hexTailChars rest

/-- Does Python's `int(s, 16)` accept `s` (ASCII)? -/
def pyIntHex16Accepts (cs : List Char) : Bool :=
  let t := pyStripSign (stripPyWs cs)
  match pyStrip0x t with
  | some r => hexBodyChars (if r.head? = some '_' then r.tail else r)
  | none => hexBodyChars t

/-- `EVMWalletManager.validate_address`: requires the `0x` prefix (which
also rejects the empty string), length exactly 42, and acceptance by
`int(address, 16)`. -/
def validate_address (address : List Char) : Bool :=
  startsWith0x address && address.length == 42 && pyIntHex16Accepts address

/-- The predicate the specification describes: `0x` followed by exactly
40 hexadecimal digits. -/
def isHex40 (address : List Char) : Bool :=
  startsWith0x address && address.length == 42 && (address.drop 2).all isHexDigitChar

/-! ## QR transfer (`src/qr_transfer.py`) -/

/-- What `display_transaction_qr` does with the payload. -/
inductive QROutcome where
  | qrEncoded (payload : List Char)
  | manualCopy (payload : List Char)
deriving DecidableEq, Repr

/-- Is the payload rendered as a QR code? -/
def QROutcome.isQR : QROutcome → Bool
  | .qrEncoded _ => true
  | .manualCopy _ => false

/-- Base64 of a text's ASCII bytes (`base64.b64encode(s.encode())`). -/
def b64encodeText (s : List Char) : List Char :=
  b64encode (s.map Char.toNat)

/-- The byte capacity of the largest QR symbol `generate_ascii_qr` can
auto-size to (`version=None`, `fit=True`, error correction L): QR
version 40, byte mode — the only mode for this JSON/base64 text, which
contains lowercase letters — holds 2953 bytes; beyond that `qr.make`
raises `DataOverflowError`. -/
def QR_MAX_BYTES : Nat := 2953

/-- `QRTransfer.generate_ascii_qr`: returns an ASCII rendering of the
data (modelled by the encoded payload itself) when the `qrcode` library
is installed and the data fits the largest QR symbol; the
library-missing case and any exception — in particular
`DataOverflowError` past capacity — are caught and yield `None`. -/
def generate_ascii_qr (data : List Char) (qr_available : Bool) : Option (List Char) :=
  if qr_available = true ∧ data.length ≤ QR_MAX_BYTES then some data else none

/-- `QRTransfer.display_transaction_qr`, starting from the compact JSON
text of the payload dict: if the JSON exceeds 2000 bytes it is base64
wrapped (with a "too large for QR" warning), then the result — wrapped
or not — is handed to `generate_ascii_qr`; a successful rendering is
displayed as a QR code, and on failure the same payload is printed for
manual copy. -/
def display_transaction_qr (json_data : List Char) (qr_available : Bool) : QROutcome :=
  let payload := if 2000 < json_data.length then b64encodeText json_data else json_data
  match generate_ascii_qr payload qr_available with
  | some _ => .qrEncoded payload
  | none => .manualCopy payload

/-! ## Base CLI transfer building (`base_cli.py`) -/

/-- The guard-and-build prefix shared by `BaseCLI.create_unsigned_tx`
and `BaseCLI.quick_send`: reject a missing wallet, a recipient failing
`validate_address`, a missing or non-positive amount, then fetch chain
parameters, compute `max_fee = base_fee * 2 + priority_fee` and build
the transfer. -/
def cli_build_eth_transfer (address : Option (List Char)) (to_addr : List Char)
    (amount : Option Int) (nonce base_fee priority_fee : Option Int)
    (chainId : Int) : Option EVMTx :=
  match address with
  | none => none
  | some _ =>
    if ¬ validate_address to_addr then none
    else
      match amount with
      | none => none
      | some a =>
        if a ≤ 0 then none
        else
          match nonce, base_fee, priority_fee with
          | some n, some bf, some pf =>
            create_eth_transfer chainId to_addr a n (bf * 2 + pf) pf 21000
          | _, _, _ => none

/-! ## Key containers and secure signing
(`src/evm_wallet.py`, `src/evm_transaction.py`, `src/backup.py`,
`src/wallet.py`)

The AEAD/KDF primitives live outside `src/` (the Rust signer reached
through `python_signer_example.SolanaSecureSigner`, PyNaCl's
`SecretBox`, and `hashlib.pbkdf2_hmac`), so they are modelled
symbolically from the spec: a derived key is the pair (password, salt),
and a ciphertext remembers the key it was encrypted under; decryption
succeeds exactly for that key.  This is the standard symbolic model of
the spec's KeyDerivation/AeadCipher contracts. -/

/-- Modelled from the spec: KeyDerivation — `derive(password, salt)` is
deterministic in its two inputs; the symbolic key is the pair itself. -/
inductive SymKey where
  | derived (password : String) (salt : List Nat)
deriving DecidableEq, Repr

/-- Modelled from the spec: AeadCipher ciphertext — authenticated, so a
ciphertext opens only under the key that produced it. -/
inductive AeadCt where
  | mk (key : SymKey) (nonce : List Nat) (plain : List Nat)
deriving DecidableEq, Repr

/-- Modelled from the spec: AeadCipher `encrypt`. -/
def aeadEncrypt (key : SymKey) (nonce : List Nat) (plain : List Nat) : AeadCt :=
  .mk key nonce plain

/-- Modelled from the spec: AeadCipher `decrypt` — fails closed
(`AuthenticationError`, here `none`) under any other key. -/
def aeadDecrypt (key : SymKey) : AeadCt → Option (List Nat)
  | .mk k _ p => if k = key then some p else none

/-- The Rust-format encrypted container (fields of the persisted record;
the base64 rendering of the byte fields is an injective representation
detail and is omitted). -/
structure RustContainer where
  version : Nat
  salt : List Nat
  nonce : List Nat
  ciphertext : AeadCt
  chain : Option String
  address : Option String
deriving DecidableEq, Repr

/-- Modelled from the spec: the repository's
`python_signer_example.SolanaSecureSigner.create_encrypted_container`
(not under `src/`) — Argon2id derivation from password and fresh salt,
AES-256-GCM encryption of the raw key under a fresh nonce. -/
def create_encrypted_container (key : List Nat) (password : String)
    (salt nonce : List Nat) : RustContainer :=
  { version := 1
    salt := salt
    nonce := nonce
    ciphertext := aeadEncrypt (.derived password salt) nonce key
    chain := none
    address := none }

/-- Modelled from the spec: the Rust signer's `decrypt_private_key` —
re-derive the key from the supplied password and the stored salt, then
AEAD-decrypt. -/
def rust_decrypt_private_key (c : RustContainer) (password : String) :
    Option (List Nat) :=
  aeadDecrypt (.derived password c.salt) c.ciphertext

/-- `EVMWalletManager.decrypt_private_key` (Rust-container branch): any
failure, including a wrong-password `AuthenticationError`, is caught and
becomes `None`; a decrypted key of the wrong length is also rejected. -/
def decrypt_private_key (c : RustContainer) (password : String) : Option (List Nat) :=
  match rust_decrypt_private_key c password with
  | some pk => if pk.length = 32 then some pk else none
  | none => none

/-- `EVMWalletManager.save_keypair` (Rust-signer branch): password
confirmation and non-emptiness checks, then the encrypted container is
produced, tagged with the chain and the public address, and written to
disk.  The returned record is the file content; `none` means nothing was
written. -/
def evm_save_keypair (key : List Nat) (address : String)
    (password confirm : String) (salt nonce : List Nat) : Option RustContainer :=
  if password ≠ confirm then none
  else if password = "" then none
  else
    let c := create_encrypted_container key password salt nonce
    some { c with chain := some "evm", address := some address }

/-- `WalletManager.save_keypair` (`src/wallet.py`): the file written is
`json.dump(list(bytes(keypair)))` — the raw 64-byte secret itself as a
JSON array, with no password and no encryption.  The returned list is
the byte content of the written file. -/
def solana_save_keypair (keypair_secret : Option (List Nat)) : Option (List Nat) :=
  match keypair_secret with
  | none => none
  | some secret => some secret

/-- The mutable signing state of `EVMTransactionManager`. -/
structure EvmTxManagerState where
  signed_tx_bytes : Option (List Nat)
deriving DecidableEq, Repr

/-- Behaviour of the external `Account.sign_transaction` call on the
decrypted key: it returns raw signed bytes or raises. -/
inductive SignAttempt where
  | ok (raw : List Nat)
  | raises
deriving DecidableEq, Repr

/-- Observable outcome of one `sign_transaction_secure` call:
the returned value, the manager state after the call, whether the key
was ever decrypted, and whether the wipe (`del private_key; gc.collect`)
ran before the function returned. -/
structure SecureSignResult where
  ret : Option (List Nat)
  state : EvmTxManagerState
  keyWasDecrypted : Bool
  keyWipedBeforeReturn : Bool
deriving DecidableEq, Repr

/-- `EVMTransactionManager.sign_transaction_secure`, path by path:
decryption failure prints the generic "wrong password or corrupted
wallet" message and returns `None` without touching state; a successful
sign stores the raw bytes, then wipes the key, then returns; an
exception raised by the signing call jumps to the `except` handler and
returns `None` — the wipe statements after the sign are never reached on
that path. -/
def sign_transaction_secure (st : EvmTxManagerState) (container : RustContainer)
    (password : String) (signer : List Nat → SignAttempt) : SecureSignResult :=
  match decrypt_private_key container password with
  | none => { ret := none, state := st, keyWasDecrypted := false, keyWipedBeforeReturn := false }
  | some pk =>
    match signer pk with
    | .raises =>
      { ret := none, state := st, keyWasDecrypted := true, keyWipedBeforeReturn := false }
    | .ok raw =>
      { ret := some raw, state := { signed_tx_bytes := some raw },
        keyWasDecrypted := true, keyWipedBeforeReturn := true }

/-- A wallet backup export (`src/backup.py`): the nacl-encrypted record,
or the base64 fallback when nacl is unavailable. -/
inductive BackupExport where
  | encrypted (salt nonce : List Nat) (ciphertext : AeadCt) (pubkey : String)
  | base64Plain (data : List Nat) (pubkey : String)
deriving DecidableEq, Repr

/-- `WalletBackup.export_encrypted` (nacl branch): PBKDF2 from password
and fresh salt, SecretBox encryption of the keypair bytes — the
primitives are PyNaCl's, modelled symbolically as above. -/
def export_encrypted (keypair : List Nat) (password : String)
    (salt nonce : List Nat) (pubkey : String) : BackupExport :=
  .encrypted salt nonce (aeadEncrypt (.derived password salt) nonce keypair) pubkey

/-- `WalletBackup.import_encrypted`: the base64 fallback record decodes
without a password; the encrypted record re-derives the key and
decrypts, and any failure (wrong password, tampered ciphertext, wrong
key length for `Keypair.from_bytes`) is caught and becomes `None`. -/
def import_encrypted (e : BackupExport) (password : String) : Option (List Nat) :=
  match e with
  | .base64Plain data _ => if data.length = 64 then some data else none
  | .encrypted salt _ ct _ =>
    match aeadDecrypt (.derived password salt) ct with
    | some pt => if pt.length = 64 then some pt else none
    | none => none

/-- Wire value back to a Python value, for entries `deserialize_unsigned_tx`
passes through untouched. -/
def jvalToPy : JVal → PyVal
  | .int i => .int i
  | .str s => .str s

/-! ## Supporting lemmas -/

/-! ## Claim theorems -/

/-! ## Theorems -/

theorem hexDigitVal_hexDigitChar {n : Nat} (h : n < 16) :
    hexDigitVal (hexDigitChar n) = some n := by
  interval_cases n <;> decide

theorem hexDigitChar_ne_space {n : Nat} (h : n < 16) : hexDigitChar n ≠ ' ' := by
  interval_cases n <;> decide

/-- Decoding inverts encoding on genuine byte lists. -/
theorem bytesFromhex_bytesHex {bs : List Nat} (h : ∀ b ∈ bs, b < 256) :
    bytesFromhex (bytesHex bs) = some bs := by
  induction bs with
  | nil => rfl
  | cons b rest ih =>
    have hb : b < 256 := h b (List.mem_cons_self b rest)
    have hrest : ∀ x ∈ rest, x < 256 := fun x hx => h x (List.mem_cons_of_mem b hx)
    have hhi : b / 16 < 16 := by omega
    have hlo : b % 16 < 16 := by omega
    rw [bytesHex, bytesFromhex, if_neg (hexDigitChar_ne_space hhi),
      hexDigitVal_hexDigitChar hhi, hexDigitVal_hexDigitChar hlo, ih hrest]
    simp only [Option.some.injEq, List.cons.injEq, and_true]
    omega

theorem b64Index_b64Char {n : Nat} (h : n < 64) : b64Index (b64Char n) = some n := by
  interval_cases n <;> decide

theorem b64Char_ne_pad {n : Nat} (h : n < 64) : b64Char n ≠ '=' := by
  interval_cases n <;> decide

theorem b64encode_filter (bs : List Nat) (h : ∀ b ∈ bs, b < 256) :
    (b64encode bs).filter (fun c => (b64Index c).isSome || c == '=') = b64encode bs := by
  induction bs using b64encode.induct with
  | case1 => rfl
  | case2 b0 =>
    have hb0 : b0 < 256 := h b0 (by simp)
    simp [b64encode, List.filter, b64Index_b64Char (show b0 / 4 < 64 by omega),
      b64Index_b64Char (show b0 % 4 * 16 < 64 by omega)]
  | case3 b0 b1 =>
    have hb0 : b0 < 256 := h b0 (by simp)
    have hb1 : b1 < 256 := h b1 (by simp)
    simp [b64encode, List.filter, b64Index_b64Char (show b0 / 4 < 64 by omega),
      b64Index_b64Char (show b0 % 4 * 16 + b1 / 16 < 64 by omega),
      b64Index_b64Char (show b1 % 16 * 4 < 64 by omega)]
  | case4 b0 b1 b2 rest ih =>
    have hb0 : b0 < 256 := h b0 (by simp)
    have hb1 : b1 < 256 := h b1 (by simp)
    have hb2 : b2 < 256 := h b2 (by simp)
    have hrest : ∀ b ∈ rest, b < 256 := fun b hb => h b (by simp [hb])
    simp only [b64encode, List.filter]
    rw [ih hrest]
    simp [b64Index_b64Char (show b0 / 4 < 64 by omega),
      b64Index_b64Char (show b0 % 4 * 16 + b1 / 16 < 64 by omega),
      b64Index_b64Char (show b1 % 16 * 4 + b2 / 64 < 64 by omega),
      b64Index_b64Char (show b2 % 64 < 64 by omega)]

theorem b64decodeGroups_b64encode (bs : List Nat) (h : ∀ b ∈ bs, b < 256) :
    b64decodeGroups (b64encode bs) = some bs := by
  induction bs using b64encode.induct with
  | case1 => rfl
  | case2 b0 =>
    have hb0 : b0 < 256 := h b0 (by simp)
    rw [b64encode, b64decodeGroups, b64Index_b64Char (show b0 / 4 < 64 by omega),
      b64Index_b64Char (show b0 % 4 * 16 < 64 by omega)]
    simp only [if_true, and_self, Option.some.injEq, List.cons.injEq, and_true]
    omega
  | case3 b0 b1 =>
    have hb0 : b0 < 256 := h b0 (by simp)
    have hb1 : b1 < 256 := h b1 (by simp)
    rw [b64encode, b64decodeGroups, b64Index_b64Char (show b0 / 4 < 64 by omega),
      b64Index_b64Char (show b0 % 4 * 16 + b1 / 16 < 64 by omega)]
    simp only []
    rw [if_neg (b64Char_ne_pad (show b1 % 16 * 4 < 64 by omega)),
      b64Index_b64Char (show b1 % 16 * 4 < 64 by omega)]
    simp only [if_true, Option.some.injEq, List.cons.injEq, and_true]
    constructor <;> omega
  | case4 b0 b1 b2 rest ih =>
    have hb0 : b0 < 256 := h b0 (by simp)
    have hb1 : b1 < 256 := h b1 (by simp)
    have hb2 : b2 < 256 := h b2 (by simp)
    have hrest : ∀ b ∈ rest, b < 256 := fun b hb => h b (by simp [hb])
    rw [b64encode, b64decodeGroups, b64Index_b64Char (show b0 / 4 < 64 by omega),
      b64Index_b64Char (show b0 % 4 * 16 + b1 / 16 < 64 by omega)]
    simp only []
    rw [if_neg (b64Char_ne_pad (show b1 % 16 * 4 + b2 / 64 < 64 by omega)),
      b64Index_b64Char (show b1 % 16 * 4 + b2 / 64 < 64 by omega)]
    simp only []
    rw [if_neg (b64Char_ne_pad (show b2 % 64 < 64 by omega)),
      b64Index_b64Char (show b2 % 64 < 64 by omega), ih hrest]
    simp only [Option.some.injEq, List.cons.injEq, and_true]
    refine ⟨by omega, by omega, by omega⟩

/-- Base64 decoding inverts encoding on genuine byte lists. -/
theorem b64decode_b64encode (bs : List Nat) (h : ∀ b ∈ bs, b < 256) :
    b64decode (b64encode bs) = some bs := by
  rw [b64decode, b64encode_filter bs h, b64decodeGroups_b64encode bs h]

/-- Base64 never shrinks its input: four output characters per three input
bytes. -/
theorem b64encode_length (bs : List Nat) :
    (b64encode bs).length = 4 * ((bs.length + 2) / 3) := by
  induction bs using b64encode.induct with
  | case1 => rfl
  | case2 b0 => simp [b64encode]
  | case3 b0 b1 => simp [b64encode]
  | case4 b0 b1 b2 rest ih =>
    simp only [b64encode, List.length_cons, ih]
    omega

theorem char_toNat_ofNat {n : Nat} (h : n < 55296) : (Char.ofNat n).toNat = n := by
  unfold Char.ofNat Char.toNat
  split
  · simp [Char.ofNatAux, UInt32.toNat]
  · rename_i hc
    exact absurd (Or.inl (by omega)) hc

/-- Lowercasing does not change the value of a hex digit character. -/
theorem hexDigitVal_asciiLower (c : Char) :
    hexDigitVal (asciiLower c) = hexDigitVal c := by
  unfold asciiLower
  split
  · rename_i hrange
    unfold hexDigitVal
    rw [char_toNat_ofNat (by omega)]
    have hA1 : ¬ (48 ≤ c.toNat + 32 ∧ c.toNat + 32 ≤ 57) := by omega
    have hA : ¬ (48 ≤ c.toNat ∧ c.toNat ≤ 57) := by omega
    have hB : ¬ (97 ≤ c.toNat ∧ c.toNat ≤ 102) := by omega
    by_cases h65 : 65 ≤ c.toNat ∧ c.toNat ≤ 70
    · have hB1 : 97 ≤ c.toNat + 32 ∧ c.toNat + 32 ≤ 102 := by omega
      rw [if_neg hA1, if_pos hB1, if_neg hA, if_neg hB, if_pos h65]
      simp only [Option.some.injEq]
      omega
    · have hB1 : ¬ (97 ≤ c.toNat + 32 ∧ c.toNat + 32 ≤ 102) := by omega
      have hC1 : ¬ (65 ≤ c.toNat + 32 ∧ c.toNat + 32 ≤ 70) := by omega
      rw [if_neg hA1, if_neg hB1, if_neg hC1, if_neg hA, if_neg hB, if_neg h65]
  · rfl

theorem natHexBE_digits_lt (n : Nat) : ∀ d ∈ natHexBE n, d < 16 := by
  induction n using natHexBE.induct with
  | case1 n h =>
    rw [natHexBE, dif_pos h]
    simpa using h
  | case2 n h ih =>
    rw [natHexBE, dif_neg h]
    intro d hd
    rcases List.mem_append.1 hd with h1 | h1
    · exact ih d h1
    · simp at h1
      omega

theorem natHexBE_ne_nil (n : Nat) : natHexBE n ≠ [] := by
  rw [natHexBE]
  split <;> simp

theorem hexValBE_foldl (a : Nat) (ds : List Nat) :
    ds.foldl (fun x d => 16 * x + d) a =
      a * 16 ^ ds.length + ds.foldl (fun x d => 16 * x + d) 0 := by
  induction ds generalizing a with
  | nil => simp
  | cons d rest ih =>
    simp only [List.foldl_cons, List.length_cons]
    rw [ih (16 * a + d), ih (16 * 0 + d)]
    ring

theorem hexValBE_natHexBE (n : Nat) : hexValBE (natHexBE n) = n := by
  induction n using natHexBE.induct with
  | case1 n h =>
    rw [natHexBE, dif_pos h]
    unfold hexValBE
    simp
  | case2 n h ih =>
    rw [natHexBE, dif_neg h]
    unfold hexValBE at ih ⊢
    rw [List.foldl_append, ih]
    simp only [List.foldl_cons, List.foldl_nil]
    omega

theorem natHexBE_length_le {n k : Nat} (hk : 1 ≤ k) (h : n < 16 ^ k) :
    (natHexBE n).length ≤ k := by
  induction n using natHexBE.induct generalizing k with
  | case1 n hlt =>
    rw [natHexBE, dif_pos hlt]
    simpa using hk
  | case2 n hlt ih =>
    rw [natHexBE, dif_neg hlt]
    have hk2 : 2 ≤ k := by
      by_contra hcon
      have hk1 : k = 1 := by omega
      rw [hk1] at h
      simp at h
      omega
    have hdiv : n / 16 < 16 ^ (k - 1) := by
      rw [Nat.div_lt_iff_lt_mul (by omega)]
      calc n < 16 ^ k := h
        _ = 16 ^ (k - 1) * 16 := by
          rw [← pow_succ]
          congr 1
          omega
    have := ih (k := k - 1) (by omega) hdiv
    simp only [List.length_append, List.length_cons, List.length_nil]
    omega

theorem zfill_eq_of_hexdigits (n k : Nat) :
    zfill k (pyHexStr n) =
      (List.replicate (k - (natHexBE n).length) 0 ++ natHexBE n).map hexDigitChar := by
  unfold zfill pyHexStr
  rw [List.map_append, List.map_replicate, List.length_map,
    show hexDigitChar 0 = '0' from by decide]

theorem hexValBE_replicate_zero_append (k : Nat) (ds : List Nat) :
    hexValBE (List.replicate k 0 ++ ds) = hexValBE ds := by
  unfold hexValBE
  rw [List.foldl_append]
  congr 1
  induction k with
  | zero => rfl
  | succ m ih => simpa [List.replicate_succ] using ih

theorem pairBytes_append {ds1 : List Nat} (ds2 : List Nat) (h : ds1.length % 2 = 0) :
    pairBytes (ds1 ++ ds2) = pairBytes ds1 ++ pairBytes ds2 := by
  induction ds1 using pairBytes.induct with
  | case1 =>
    cases ds2 with
    | nil => rfl
    | cons x rest =>
      cases rest with
      | nil => rfl
      | cons y rest2 => rfl
  | case2 d => simp at h
  | case3 d1 d2 rest ih =>
    simp only [List.cons_append, pairBytes, List.length_cons, List.append_eq] at *
    rw [ih (by omega)]

theorem pairBytes_length (ds : List Nat) (h : ds.length % 2 = 0) :
    (pairBytes ds).length = ds.length / 2 := by
  induction ds using pairBytes.induct with
  | case1 => rfl
  | case2 d => simp at h
  | case3 d1 d2 rest ih =>
    simp only [pairBytes, List.length_cons] at *
    rw [ih (by omega)]
    omega

theorem pairBytes_lt (ds : List Nat) (h : ∀ d ∈ ds, d < 16) :
    ∀ b ∈ pairBytes ds, b < 256 := by
  induction ds using pairBytes.induct with
  | case1 => simp [pairBytes]
  | case2 d => simp [pairBytes]
  | case3 d1 d2 rest ih =>
    intro b hb
    simp only [pairBytes, List.mem_cons] at hb
    rcases hb with hb | hb
    · have h1 := h d1 (by simp)
      have h2 := h d2 (by simp)
      omega
    · exact ih (fun d hd => h d (by simp [hd])) b hb

theorem beNat_foldl (a : Nat) (bs : List Nat) :
    bs.foldl (fun x b => 256 * x + b) a =
      a * 256 ^ bs.length + bs.foldl (fun x b => 256 * x + b) 0 := by
  induction bs generalizing a with
  | nil => simp
  | cons b rest ih =>
    simp only [List.foldl_cons, List.length_cons]
    rw [ih (256 * a + b), ih (256 * 0 + b)]
    ring

theorem beNat_pairBytes (ds : List Nat) (h : ds.length % 2 = 0) :
    beNat (pairBytes ds) = hexValBE ds := by
  induction ds using pairBytes.induct with
  | case1 => rfl
  | case2 d => simp at h
  | case3 d1 d2 rest ih =>
    simp only [List.length_cons] at h
    have ih2 : beNat (pairBytes rest) = hexValBE rest := ih (by omega)
    unfold beNat hexValBE at ih2 ⊢
    simp only [pairBytes, List.foldl_cons]
    rw [beNat_foldl, hexValBE_foldl, ih2]
    have hlen : (pairBytes rest).length = rest.length / 2 := pairBytes_length rest (by omega)
    have hpow : (256 : Nat) ^ (rest.length / 2) = 16 ^ rest.length := by
      rw [show (256 : Nat) = 16 ^ 2 from by norm_num, ← pow_mul]
      congr 1
      omega
    rw [hlen, hpow]
    ring

/-- `bytes.fromhex` succeeds on a hex-digit-character rendering and
produces the paired bytes. -/
theorem bytesFromhex_map_hexDigitChar (ds : List Nat) (h16 : ∀ d ∈ ds, d < 16)
    (heven : ds.length % 2 = 0) :
    bytesFromhex (ds.map hexDigitChar) = some (pairBytes ds) := by
  induction ds using pairBytes.induct with
  | case1 => rfl
  | case2 d => simp at heven
  | case3 d1 d2 rest ih =>
    have h1 : d1 < 16 := h16 d1 (by simp)
    have h2 : d2 < 16 := h16 d2 (by simp)
    simp only [List.map_cons, List.length_cons] at *
    rw [bytesFromhex, if_neg (hexDigitChar_ne_space h1), hexDigitVal_hexDigitChar h1,
      hexDigitVal_hexDigitChar h2, ih (fun d hd => h16 d (by simp [hd])) (by omega)]
    rfl

theorem hexDigitVal_lt {c : Char} {d : Nat} (h : hexDigitVal c = some d) : d < 16 := by
  unfold hexDigitVal at h
  split at h
  · rename_i hr
    simp only [Option.some.injEq] at h
    omega
  · split at h
    · rename_i hr
      simp only [Option.some.injEq] at h
      omega
    · split at h
      · rename_i hr
        simp only [Option.some.injEq] at h
        omega
      · simp at h

theorem hexDigitVal_ne_space {c : Char} {d : Nat} (h : hexDigitVal c = some d) :
    c ≠ ' ' := by
  intro hc
  subst hc
  simp [hexDigitVal] at h

/-- On an even-length run of hex digit characters, `bytes.fromhex`
succeeds, splits across a following suffix, and produces bytes of the
expected count, range and big-endian value. -/
theorem bytesFromhex_hexrun (cs1 cs2 : List Char)
    (hhex : ∀ c ∈ cs1, (hexDigitVal c).isSome = true)
    (heven : cs1.length % 2 = 0) :
    ∃ bs1, bytesFromhex cs1 = some bs1 ∧
      bytesFromhex (cs1 ++ cs2) = (bytesFromhex cs2).map (fun bs2 => bs1 ++ bs2) ∧
      bs1.length = cs1.length / 2 ∧ (∀ b ∈ bs1, b < 256) ∧
      beNat bs1 = hexValBE (cs1.map fun c => (hexDigitVal c).getD 0) := by
  induction cs1 using pairChars.induct with
  | case1 =>
    refine ⟨[], rfl, ?_, rfl, by simp, rfl⟩
    simp only [List.nil_append]
    cases bytesFromhex cs2 <;> rfl
  | case2 c => simp at heven
  | case3 c1 c2 rest ih =>
    obtain ⟨d1, hv1⟩ := Option.isSome_iff_exists.1 (hhex c1 (by simp))
    obtain ⟨d2, hv2⟩ := Option.isSome_iff_exists.1 (hhex c2 (by simp))
    have hd1 : d1 < 16 := hexDigitVal_lt hv1
    have hd2 : d2 < 16 := hexDigitVal_lt hv2
    have hc1 : c1 ≠ ' ' := hexDigitVal_ne_space hv1
    simp only [List.length_cons] at heven
    obtain ⟨brest, hb, happ, hlen, hlt, hval⟩ :=
      ih (fun c hc => hhex c (by simp [hc])) (by omega)
    refine ⟨(16 * d1 + d2) :: brest, ?_, ?_, ?_, ?_, ?_⟩
    · rw [bytesFromhex, if_neg hc1, hv1, hv2, hb]
    · rw [List.cons_append, List.cons_append, bytesFromhex, if_neg hc1, hv1, hv2, happ]
      cases bytesFromhex cs2 <;> simp
    · simp only [List.length_cons, hlen]
      omega
    · intro b hb2
      simp only [List.mem_cons] at hb2
      rcases hb2 with hb2 | hb2
      · omega
      · exact hlt b hb2
    · unfold beNat hexValBE at hval ⊢
      simp only [List.map_cons, List.foldl_cons, hv1, hv2, Option.getD_some]
      rw [beNat_foldl, hexValBE_foldl, hval]
      have hlen2 : brest.length = rest.length / 2 := by simpa using hlen
      have hmaplen : (rest.map fun c => (hexDigitVal c).getD 0).length = rest.length :=
        List.length_map _ _
      rw [hlen2, hmaplen]
      have hpow : (256 : Nat) ^ (rest.length / 2) = 16 ^ rest.length := by
        rw [show (256 : Nat) = 16 ^ 2 from by norm_num, ← pow_mul]
        congr 1
        omega
      rw [hpow]
      ring

theorem dropWhile_eq_self_of {p : Char → Bool} {cs : List Char}
    (h : ∀ c ∈ cs, p c = false) : cs.dropWhile p = cs := by
  cases cs with
  | nil => rfl
  | cons c rest =>
    rw [List.dropWhile_cons, if_neg]
    simp [h c (by simp)]

theorem stripPyWs_of_nonws {cs : List Char}
    (h : ∀ c ∈ cs, isPyWhitespace c = false) : stripPyWs cs = cs := by
  unfold stripPyWs
  rw [dropWhile_eq_self_of h, dropWhile_eq_self_of (by
    intro c hc
    exact h c (List.mem_reverse.1 hc)), List.reverse_reverse]

theorem isPyWhitespace_of_hex {c : Char} (h : isHexDigitChar c = true) :
    isPyWhitespace c = false := by
  unfold isHexDigitChar hexDigitVal at h
  unfold isPyWhitespace
  split at h
  · rename_i hr
    simp only [Bool.or_eq_false_iff, beq_eq_false_iff_ne, ne_eq]
    omega
  · split at h
    · rename_i hr
      simp only [Bool.or_eq_false_iff, beq_eq_false_iff_ne, ne_eq]
      omega
    · split at h
      · rename_i hr
        simp only [Bool.or_eq_false_iff, beq_eq_false_iff_ne, ne_eq]
        omega
      · simp at h

theorem hexTailChars_of_all_hex {cs : List Char}
    (h : ∀ c ∈ cs, isHexDigitChar c = true) : hexTailChars cs = true := by
  induction cs with
  | nil => rfl
  | cons c rest ih =>
    have hc : isHexDigitChar c = true := h c (by simp)
    have hne : c ≠ '_' := by
      intro he
      subst he
      simp [isHexDigitChar, hexDigitVal] at hc
    rw [hexTailChars.eq_def]
    simp only []
    rw [if_neg hne, hc, ih (fun x hx => h x (by simp [hx]))]
    rfl

theorem hexBodyChars_of_all_hex {c : Char} {cs : List Char}
    (hc : isHexDigitChar c = true) (h : ∀ x ∈ cs, isHexDigitChar x = true) :
    hexBodyChars (c :: cs) = true := by
  rw [hexBodyChars, hc, hexTailChars_of_all_hex h]
  rfl

theorem bytesFromhex_bytes_lt : ∀ cs bs, bytesFromhex cs = some bs → ∀ b ∈ bs, b < 256 := by
  intro cs
  induction cs using bytesFromhex.induct with
  | case1 =>
    intro bs h b hb
    simp only [bytesFromhex, Option.some.injEq] at h
    subst h
    simp at hb
  | case2 tail ih =>
    intro bs h b hb
    rw [bytesFromhex.eq_def] at h
    simp only [if_true] at h
    exact ih bs h b hb
  | case3 c1 hns =>
    intro bs h b hb
    rw [bytesFromhex, if_neg hns] at h
    simp at h
  | case4 c1 hns c2 rest2 d1 d2 bs0 hbs0 hv2 hv1 ih =>
    intro bs h b hb
    rw [bytesFromhex, if_neg hns, hv1, hv2, hbs0] at h
    simp only [Option.some.injEq] at h
    subst h
    simp only [List.mem_cons] at hb
    rcases hb with hb | hb
    · have h1 := hexDigitVal_lt hv1
      have h2 := hexDigitVal_lt hv2
      omega
    · exact ih bs0 hbs0 b hb
  | case5 c1 hns c2 rest2 hfail ih =>
    intro bs h b hb
    rw [bytesFromhex, if_neg hns] at h
    cases hv1 : hexDigitVal c1 with
    | none => rw [hv1] at h; simp at h
    | some d1 =>
      cases hv2 : hexDigitVal c2 with
      | none => rw [hv1, hv2] at h; simp at h
      | some d2 =>
        cases hr : bytesFromhex rest2 with
        | none => rw [hv1, hv2, hr] at h; simp at h
        | some bs0 => exact (hfail d1 d2 bs0 hv1 hv2 hr).elim

theorem deserializeEntry_of_ne_data (e : String × JVal) (h : e.1 ≠ "data") :
    deserializeEntry e = some (e.1, jvalToPy e.2) := by
  obtain ⟨k, v⟩ := e
  cases v with
  | int i => rfl
  | str s =>
    simp only [deserializeEntry, jvalToPy]
    rw [if_neg h]

theorem deserialize_no_data (l : List (String × JVal)) (h : ∀ e ∈ l, e.1 ≠ "data") :
    deserialize_unsigned_tx l = some (l.map fun e => (e.1, jvalToPy e.2)) := by
  induction l with
  | nil => rfl
  | cons e rest ih =>
    rw [deserialize_unsigned_tx, deserializeEntry_of_ne_data e (h e (by simp)),
      ih (fun x hx => h x (by simp [hx]))]
    rfl

theorem items_roundtrip (tx : EVMTx) (h : ∀ b ∈ tx.data, b < 256) :
    deserialize_unsigned_tx (serialize_unsigned_tx tx.items) = some tx.items := by
  simp [EVMTx.items, serialize_unsigned_tx, serializeEntry, deserialize_unsigned_tx,
    deserializeEntry, jvalToPy, startsWith0x, bytesFromhex_bytesHex h]

/-- C5: for all chain parameters fetched for an EVM transfer, the
`maxFeePerGas` field of the transaction built by the CLI build flow
(`BaseCLI.create_unsigned_tx` and `BaseCLI.quick_send` share it) equals
`2 * base_fee + priority_fee`. -/
theorem C5_max_fee_formula (address to_addr : List Char) (a n bf pf chainId : Int)
    (tx : EVMTx)
    (h : cli_build_eth_transfer (some address) to_addr (some a) (some n) (some bf)
      (some pf) chainId = some tx) :
    tx.maxFeePerGas = 2 * bf + pf := by
  unfold cli_build_eth_transfer create_eth_transfer at h
  simp only [] at h
  split at h
  · simp at h
  · split at h
    · simp at h
    · simp only [Option.some.injEq] at h
      subst h
      simp only []
      omega

/-- C5 witness: base fee 10 gwei and priority fee 1 gwei give a max fee
of 21 gwei on a concrete successful build. -/
theorem C5_max_fee_witness :
    (⟨2, 8453, 5, '0' :: 'x' :: List.replicate 40 'a', 10 ^ 18, 21000,
      21000000000, 1000000000, []⟩ : EVMTx).maxFeePerGas =
      2 * (10 * 10 ^ 9) + 10 ^ 9 :=
  C5_max_fee_formula ("0xme".toList) ('0' :: 'x' :: List.replicate 40 'a')
    1 5 (10 * 10 ^ 9) (10 ^ 9) 8453 _ (by decide)

/-- C6 (amended): input validation for EVM transfers lives in the CLI
layer, not the chain-level builder — `cli_build_eth_transfer` returns no
transaction when the amount is missing or not strictly positive, or when
the recipient fails `validate_address`; the builder
`create_eth_transfer` itself performs no validation. -/
theorem C6_cli_validates (address : Option (List Char)) (to_addr : List Char)
    (amount : Option Int) (nonce base_fee priority_fee : Option Int) (chainId : Int) :
    ((∀ a, amount = some a → a ≤ 0) →
      cli_build_eth_transfer address to_addr amount nonce base_fee priority_fee chainId = none)
    ∧ (validate_address to_addr = false →
      cli_build_eth_transfer address to_addr amount nonce base_fee priority_fee chainId = none) := by
  constructor
  · intro ha
    unfold cli_build_eth_transfer
    cases address with
    | none => rfl
    | some addr =>
      simp only []
      split
      · rfl
      · cases amount with
        | none => rfl
        | some a =>
          simp only []
          rw [if_pos (ha a rfl)]
  · intro hv
    unfold cli_build_eth_transfer
    cases address with
    | none => rfl
    | some addr =>
      simp only []
      rw [if_pos (by simp [hv])]

/-- C6 witness: the CLI guard rejects a zero amount before any
transaction is built. -/
theorem C6_cli_witness :
    cli_build_eth_transfer (some ("0xme".toList)) ('0' :: 'x' :: List.replicate 40 'a')
      (some 0) (some 5) (some 1) (some 1) 8453 = none :=
  (C6_cli_validates (some ("0xme".toList)) ('0' :: 'x' :: List.replicate 40 'a')
      (some 0) (some 5) (some 1) (some 1) 8453).1
    (by intro a ha; injection ha with h; omega)

/-- C6 counterexample: the chain-level builder cited by the claim
(`EVMTransactionManager.create_eth_transfer`) does not fail on
`amount = 0` or on a recipient that is not an address — it returns a
transaction. -/
theorem C6_builder_accepts_zero_counterexample :
    create_eth_transfer BASE_CHAIN_ID ("not-an-address".toList) 0 7 23000000000
        1000000000 21000 =
      some ⟨2, BASE_CHAIN_ID, 7, "not-an-address".toList, 0, 21000, 23000000000,
        1000000000, []⟩ := by
  decide

/-- C7: transaction serialization round-trips — for every transaction
built by `create_eth_transfer` or `create_erc20_transfer`,
`deserialize_unsigned_tx` of `serialize_unsigned_tx` restores the dict
field-for-field (the bytes `data` field back from hex), and for every
byte sequence, `load_unsigned_transaction` of
`save_unsigned_transaction` returns the identical bytes. -/
theorem C7_roundtrip :
    (∀ chainId to_addr a n mf mp g tx,
      create_eth_transfer chainId to_addr a n mf mp g = some tx →
      deserialize_unsigned_tx (serialize_unsigned_tx tx.items) = some tx.items)
    ∧ (∀ chainId tok to_addr amt n mf mp g tx,
      create_erc20_transfer chainId tok to_addr amt n mf mp g = some tx →
      deserialize_unsigned_tx (serialize_unsigned_tx tx.items) = some tx.items)
    ∧ (∀ bs, (∀ b ∈ bs, b < 256) →
      load_unsigned_transaction (save_unsigned_transaction bs) = some bs) := by
  refine ⟨?_, ?_, ?_⟩
  · intro chainId to_addr a n mf mp g tx h
    unfold create_eth_transfer at h
    simp only [Option.some.injEq] at h
    subst h
    exact items_roundtrip _ (by simp)
  · intro chainId tok to_addr amt n mf mp g tx h
    unfold create_erc20_transfer at h
    simp only [] at h
    split at h
    · rename_i data hdata
      simp only [Option.some.injEq] at h
      subst h
      exact items_roundtrip _ (bytesFromhex_bytes_lt _ _ hdata)
    · simp at h
  · intro bs h
    unfold save_unsigned_transaction load_unsigned_transaction
    simp only [if_pos rfl]
    exact b64decode_b64encode bs h

/-- C7 witness: a concrete ETH transfer and a concrete byte sequence
round-trip. -/
theorem C7_roundtrip_witness :
    deserialize_unsigned_tx (serialize_unsigned_tx
      (⟨2, 8453, 5, "0xrecipient".toList, 10 ^ 18, 21000, 21000000000, 1000000000,
        []⟩ : EVMTx).items) =
      some (⟨2, 8453, 5, "0xrecipient".toList, 10 ^ 18, 21000, 21000000000,
        1000000000, []⟩ : EVMTx).items
    ∧ load_unsigned_transaction (save_unsigned_transaction [0, 1, 255]) =
      some [0, 1, 255] :=
  ⟨C7_roundtrip.1 8453 ("0xrecipient".toList) 1 5 21000000000 1000000000 21000 _
      (by decide),
    C7_roundtrip.2.2 [0, 1, 255] (by decide)⟩

/-- C10 (implicit): when the wire JSON parses and its `data` field is a
string that does not start with `0x`, `deserialize_unsigned_tx` does not
fail — it silently replaces the field with empty bytes and returns the
rest of the transaction unchanged. -/
theorem C10_data_replaced_empty (pre post : List (String × JVal)) (s : List Char)
    (hpre : ∀ e ∈ pre, e.1 ≠ "data") (hpost : ∀ e ∈ post, e.1 ≠ "data")
    (hs : startsWith0x s = false) :
    deserialize_unsigned_tx (pre ++ ("data", .str s) :: post) =
      some ((pre.map fun e => (e.1, jvalToPy e.2)) ++
        ("data", .bytes []) :: (post.map fun e => (e.1, jvalToPy e.2))) := by
  induction pre with
  | nil =>
    simp only [List.nil_append, List.map_nil]
    rw [deserialize_unsigned_tx]
    have hentry : deserializeEntry ("data", .str s) = some ("data", .bytes []) := by
      simp only [deserializeEntry, if_true]
      rw [if_neg (by simp [hs])]
    rw [hentry, deserialize_no_data post hpost]
  | cons e rest ih =>
    rw [List.cons_append, deserialize_unsigned_tx,
      deserializeEntry_of_ne_data e (hpre e (by simp)),
      ih (fun x hx => hpre x (by simp [hx]))]
    rfl

/-- C10 witness: a parsed transaction whose `data` is `"junk"` decodes
successfully with `data` replaced by empty bytes. -/
theorem C10_data_witness :
    deserialize_unsigned_tx
        [("type", .int 2), ("data", .str ("junk".toList)), ("nonce", .int 5)] =
      some [("type", .int 2), ("data", .bytes []), ("nonce", .int 5)] :=
  C10_data_replaced_empty [("type", .int 2)] [("nonce", .int 5)] ("junk".toList)
    (by decide) (by decide) (by decide)

/-- C1 (amended): the EVM wallet manager's save writes the private key
only as ciphertext inside the encrypted container — the saved file's
ciphertext opens exactly under the password chosen at save time, and the
other fields are the salt, nonce and public metadata; the Solana
`WalletManager.save_keypair`, by contrast, writes the raw secret bytes
themselves. -/
theorem C1_save_writes_only_ciphertext (key : List Nat) (address : String)
    (password confirm : String) (salt nonce : List Nat) (c : RustContainer)
    (h : evm_save_keypair key address password confirm salt nonce = some c) :
    (∀ p2 k, aeadDecrypt (.derived p2 c.salt) c.ciphertext = some k ↔
      (p2 = password ∧ k = key))
    ∧ c.salt = salt ∧ c.nonce = nonce ∧ c.chain = some "evm"
    ∧ c.address = some address
    ∧ solana_save_keypair (some key) = some key := by
  unfold evm_save_keypair at h
  split at h
  · simp at h
  · split at h
    · simp at h
    · simp only [Option.some.injEq] at h
      subst h
      refine ⟨?_, rfl, rfl, rfl, rfl, rfl⟩
      intro p2 k
      simp only [create_encrypted_container, aeadEncrypt, aeadDecrypt]
      constructor
      · intro hd
        split at hd
        · rename_i hk
          simp only [SymKey.derived.injEq] at hk
          simp only [Option.some.injEq] at hd
          exact ⟨hk.1.symm, hd.symm⟩
        · simp at hd
      · rintro ⟨rfl, rfl⟩
        rw [if_pos rfl]

/-- C1 witness: a container saved under password `pw` decrypts to the
original key under `pw`. -/
theorem C1_save_witness :
    aeadDecrypt (.derived "pw" [3])
        (aeadEncrypt (.derived "pw" [3]) [4] (List.replicate 32 9)) =
      some (List.replicate 32 9) :=
  ((C1_save_writes_only_ciphertext (List.replicate 32 9) "0xAb" "pw" "pw" [3] [4]
      ⟨1, [3], [4], aeadEncrypt (.derived "pw" [3]) [4] (List.replicate 32 9),
        some "evm", some "0xAb"⟩ (by decide)).1 "pw" (List.replicate 32 9)).2
    ⟨rfl, rfl⟩

/-- C1 counterexample: the Solana `WalletManager.save_keypair` writes the
raw 64-byte secret to disk in plaintext — the wallet file's content is
exactly the secret byte list, readable without any password — so the
claim that every save writes the key only as ciphertext is false. -/
theorem C1_solana_plaintext_counterexample :
    solana_save_keypair (some (List.range 64)) = some (List.range 64)
    ∧ (List.range 64).length = 64 :=
  ⟨rfl, by decide⟩

/-- C2 (amended): in `sign_transaction_secure` the decrypted key is
wiped before return only on the successful signing path; whenever the
key was decrypted but the signing call raised (the call returns `None`
through the `except` handler), the wipe has not run. -/
theorem C2_wipe_on_success_only (st : EvmTxManagerState) (container : RustContainer)
    (password : String) (signer : List Nat → SignAttempt) :
    ((sign_transaction_secure st container password signer).ret.isSome = true →
      (sign_transaction_secure st container password signer).keyWipedBeforeReturn = true)
    ∧ ((sign_transaction_secure st container password signer).keyWasDecrypted = true ∧
        (sign_transaction_secure st container password signer).ret = none →
      (sign_transaction_secure st container password signer).keyWipedBeforeReturn = false) := by
  unfold sign_transaction_secure
  cases decrypt_private_key container password with
  | none => simp
  | some pk =>
    cases hsig : signer pk with
    | raises => simp [hsig]
    | ok raw => simp [hsig]

/-- C2 witness: on a successful signing run the key is wiped before the
call returns. -/
theorem C2_wipe_witness :
    (sign_transaction_secure ⟨none⟩
        (create_encrypted_container (List.replicate 32 5) "pw" [1] [2]) "pw"
        (fun _ => .ok [9])).keyWipedBeforeReturn = true :=
  (C2_wipe_on_success_only ⟨none⟩
      (create_encrypted_container (List.replicate 32 5) "pw" [1] [2]) "pw"
      (fun _ => .ok [9])).1 (by decide)

/-- C2 counterexample: when the signing call raises after the key was
decrypted, `sign_transaction_secure` returns through the `except`
handler without wiping — refuting the claim that every path out of the
signing call wipes the key. -/
theorem C2_exception_leaves_key_counterexample :
    (sign_transaction_secure ⟨none⟩
        (create_encrypted_container (List.replicate 32 5) "pw" [1] [2]) "pw"
        (fun _ => .raises)).keyWasDecrypted = true
    ∧ (sign_transaction_secure ⟨none⟩
        (create_encrypted_container (List.replicate 32 5) "pw" [1] [2]) "pw"
        (fun _ => .raises)).keyWipedBeforeReturn = false := by
  decide

/-- C3: decrypting a container with any password other than the one it
was encrypted under fails (`None`), is indistinguishable between wrong
password and corruption, leaves the signer's stored signed-transaction
state unchanged, fails likewise for encrypted backups, and a successful
decryption can only return the original key under the original
password. -/
theorem C3_wrong_password_rejected (key : List Nat) (password p2 : String)
    (salt nonce : List Nat) (pubkey : String) (hne : p2 ≠ password) :
    decrypt_private_key (create_encrypted_container key password salt nonce) p2 = none
    ∧ (∀ st signer,
        sign_transaction_secure st (create_encrypted_container key password salt nonce)
          p2 signer =
        { ret := none, state := st, keyWasDecrypted := false,
          keyWipedBeforeReturn := false })
    ∧ import_encrypted (export_encrypted key password salt nonce pubkey) p2 = none
    ∧ (∀ p3 k,
        decrypt_private_key (create_encrypted_container key password salt nonce) p3 =
          some k → p3 = password ∧ k = key) := by
  have hdec : ∀ p3, p3 ≠ password →
      aeadDecrypt (.derived p3 salt)
        (aeadEncrypt (.derived password salt) nonce key) = none := by
    intro p3 hp3
    simp only [aeadEncrypt, aeadDecrypt]
    rw [if_neg]
    simp only [SymKey.derived.injEq, not_and]
    intro hpw
    exact absurd hpw.symm hp3
  refine ⟨?_, ?_, ?_, ?_⟩
  · unfold decrypt_private_key rust_decrypt_private_key create_encrypted_container
    simp only []
    rw [hdec p2 hne]
  · intro st signer
    unfold sign_transaction_secure
    rw [show decrypt_private_key (create_encrypted_container key password salt nonce) p2
        = none from by
      unfold decrypt_private_key rust_decrypt_private_key create_encrypted_container
      simp only []
      rw [hdec p2 hne]]
  · unfold import_encrypted export_encrypted
    simp only []
    rw [hdec p2 hne]
  · intro p3 k hk
    unfold decrypt_private_key rust_decrypt_private_key create_encrypted_container
      aeadEncrypt aeadDecrypt at hk
    simp only [] at hk
    by_cases hp : SymKey.derived password salt = SymKey.derived p3 salt
    · rw [if_pos hp] at hk
      simp only [] at hk
      split at hk
      · simp only [Option.some.injEq] at hk
        simp only [SymKey.derived.injEq] at hp
        exact ⟨hp.1.symm, hk.symm⟩
      · simp at hk
    · rw [if_neg hp] at hk
      simp at hk

/-- C3 witness: a concrete container rejects a concrete wrong password. -/
theorem C3_wrong_password_witness :
    decrypt_private_key
        (create_encrypted_container (List.replicate 32 7) "pw" [1] [2]) "oops" =
      none :=
  (C3_wrong_password_rejected (List.replicate 32 7) "pw" "oops" [1] [2] "pk"
    (by decide)).1

/-- C4 (amended): a payload whose compact JSON exceeds 2000 bytes is
never routed to file transfer and never truncated —
`display_transaction_qr` base64-wraps it (which enlarges it) and hands
the wrapped payload to QR generation: it is rendered as a QR code when
the library is available and the wrapped payload fits the largest QR
symbol, and otherwise the same wrapped payload is printed for manual
copy. -/
theorem C4_oversize_no_file_transfer (json_data : List Char) (qr_available : Bool)
    (h : 2000 < json_data.length) :
    display_transaction_qr json_data qr_available =
      (if qr_available = true ∧ (b64encodeText json_data).length ≤ QR_MAX_BYTES
        then QROutcome.qrEncoded (b64encodeText json_data)
        else QROutcome.manualCopy (b64encodeText json_data))
    ∧ json_data.length ≤ (b64encodeText json_data).length := by
  constructor
  · simp only [display_transaction_qr, generate_ascii_qr]
    rw [if_pos h]
    by_cases hc : qr_available = true ∧ (b64encodeText json_data).length ≤ QR_MAX_BYTES
    · rw [if_pos hc, if_pos hc]
    · rw [if_neg hc, if_neg hc]
  · unfold b64encodeText
    rw [b64encode_length, List.length_map]
    omega

/-- C4 witness: a concrete 2001-byte payload is base64-wrapped and
dispatched on QR capacity rather than signalling file transfer. -/
theorem C4_oversize_witness :
    display_transaction_qr (List.replicate 2001 'b') true =
      (if true = true ∧ (b64encodeText (List.replicate 2001 'b')).length ≤ QR_MAX_BYTES
        then QROutcome.qrEncoded (b64encodeText (List.replicate 2001 'b'))
        else QROutcome.manualCopy (b64encodeText (List.replicate 2001 'b'))) :=
  (C4_oversize_no_file_transfer (List.replicate 2001 'b') true
    (by rw [List.length_replicate]; omega)).1

/-- C4 counterexample: a 2001-byte payload exceeds the claimed 2000-byte
ceiling, yet its base64 wrapping (2668 characters) still fits a QR
symbol and is encoded into a QR code — refuting the claim that such a
payload is reported as requiring file transfer and not QR-encoded. -/
theorem C4_no_file_transfer_counterexample :
    2000 < (List.replicate 2001 'a').length
    ∧ (display_transaction_qr (List.replicate 2001 'a') true).isQR = true := by
  have hlen : 2000 < (List.replicate 2001 'a').length := by
    rw [List.length_replicate]
    omega
  have hcap : (b64encodeText (List.replicate 2001 'a')).length ≤ QR_MAX_BYTES := by
    rw [b64encodeText, b64encode_length, List.length_map, List.length_replicate]
    norm_num [QR_MAX_BYTES]
  refine ⟨hlen, ?_⟩
  simp only [display_transaction_qr, generate_ascii_qr]
  rw [if_pos hlen, if_pos ⟨by trivial, hcap⟩]
  rfl

/-- C8 (amended): `validate_address` accepts every string of the form
`0x` + 40 hex digits, and everything it accepts starts with `0x` and has
length 42 — but its trailing call to Python's `int(address, 16)` also
accepts length-42 strings that are not 40 hex digits (underscores,
trailing whitespace), so acceptance is not equivalent to the
`0x`+40-hex-digits shape. -/
theorem C8_validator_characterization :
    (∀ address : List Char, isHex40 address = true → validate_address address = true)
    ∧ (∀ address : List Char, validate_address address = true →
      startsWith0x address = true ∧ address.length = 42) := by
  constructor
  · intro address h
    simp only [isHex40, Bool.and_eq_true, beq_iff_eq, List.all_eq_true] at h
    obtain ⟨⟨h0x, hlen⟩, hall⟩ := h
    cases address with
    | nil => simp [startsWith0x] at h0x
    | cons c0 rest =>
      cases rest with
      | nil => simp [startsWith0x] at h0x
      | cons c1 t =>
        simp only [startsWith0x, Bool.and_eq_true, beq_iff_eq] at h0x
        obtain ⟨rfl, rfl⟩ := h0x
        simp only [List.drop_succ_cons, List.drop_zero] at hall
        simp only [List.length_cons] at hlen
        have ht40 : t.length = 40 := by omega
        have h3 : pyIntHex16Accepts ('0' :: 'x' :: t) = true := by
          have hnws : ∀ c ∈ ('0' :: 'x' :: t), isPyWhitespace c = false := by
            intro c hc
            simp only [List.mem_cons] at hc
            rcases hc with rfl | rfl | hc
            · decide
            · decide
            · exact isPyWhitespace_of_hex (hall c hc)
          unfold pyIntHex16Accepts
          simp only []
          rw [stripPyWs_of_nonws hnws]
          rw [show pyStripSign ('0' :: 'x' :: t) = '0' :: 'x' :: t from by
            rw [pyStripSign, if_neg (by decide)]]
          rw [show pyStrip0x ('0' :: 'x' :: t) = some t from by
            rw [pyStrip0x, if_pos ⟨rfl, Or.inl rfl⟩]]
          simp only []
          cases t with
          | nil => simp at ht40
          | cons c t2 =>
            have hc : isHexDigitChar c = true := hall c (by simp)
            have hcne : c ≠ '_' := by
              intro he
              subst he
              simp [isHexDigitChar, hexDigitVal] at hc
            rw [if_neg (by
              simp only [List.head?, Option.some.injEq]
              exact hcne)]
            exact hexBodyChars_of_all_hex hc (fun x hx => hall x (by simp [hx]))
        unfold validate_address
        rw [h3, show startsWith0x ('0' :: 'x' :: t) = true from by simp [startsWith0x]]
        simp only [List.length_cons, ht40]
        rfl
  · intro address h
    simp only [validate_address, Bool.and_eq_true, beq_iff_eq] at h
    exact ⟨h.1.1, h.1.2⟩

/-- C8 witness: a canonical `0x`+40-hex-digit address is accepted. -/
theorem C8_validator_witness :
    validate_address ('0' :: 'x' :: List.replicate 40 'a') = true :=
  C8_validator_characterization.1 ('0' :: 'x' :: List.replicate 40 'a') (by decide)

/-- C8 counterexample: a length-42 string of `0x`, 39 hex digits and a
trailing space is accepted by `validate_address` (Python's `int` strips
the whitespace) although it is not `0x` + 40 hex digits — refuting the
claimed equivalence. -/
theorem C8_validator_counterexample :
    validate_address ('0' :: 'x' :: (List.replicate 39 'a' ++ [' '])) = true
    ∧ isHex40 ('0' :: 'x' :: (List.replicate 39 'a' ++ [' '])) = false := by
  decide

/-- C9: for a `0x`-prefixed 40-hex-digit recipient and `amount < 2^256`,
the `data` built by `create_erc20_transfer` is the selector `a9059cbb`,
then the recipient's 20 address bytes left-padded to 32 bytes, then the
amount as a 32-byte big-endian integer, and the transaction's `value` is
zero. -/
theorem C9_erc20_encoding (chainId : Int) (token t : List Char) (amount : Nat)
    (nonce mf mp gas : Int) (hlen : t.length = 40)
    (hhex : ∀ c ∈ t, isHexDigitChar c = true) (hamt : amount < 2 ^ 256) :
    ∃ tx ab amt,
      create_erc20_transfer chainId token ('0' :: 'x' :: t) amount nonce mf mp gas =
        some tx ∧
      bytesFromhex (t.map asciiLower) = some ab ∧
      tx.data = [0xa9, 0x05, 0x9c, 0xbb] ++ (List.replicate 12 0 ++ ab) ++ amt ∧
      ab.length = 20 ∧ amt.length = 32 ∧ beNat amt = amount ∧
      (∀ b ∈ amt, b < 256) ∧ tx.value = 0 := by
  have hamt16 : amount < 16 ^ 64 := by
    calc amount < 2 ^ 256 := hamt
      _ = 16 ^ 64 := by
        rw [show (16 : Nat) = 2 ^ 4 from by norm_num, ← pow_mul]
  have hL : (natHexBE amount).length ≤ 64 := natHexBE_length_le (by omega) hamt16
  have hds_all : ∀ d ∈ List.replicate (64 - (natHexBE amount).length) 0 ++
      natHexBE amount, d < 16 := by
    intro d hd
    rcases List.mem_append.1 hd with hd | hd
    · rw [List.eq_of_mem_replicate hd]
      omega
    · exact natHexBE_digits_lt amount d hd
  have hds_len : (List.replicate (64 - (natHexBE amount).length) 0 ++
      natHexBE amount).length = 64 := by
    simp only [List.length_append, List.length_replicate]
    omega
  have hpadamt : zfill 64 (pyHexStr amount) =
      (List.replicate (64 - (natHexBE amount).length) 0 ++ natHexBE amount).map
        hexDigitChar :=
    zfill_eq_of_hexdigits amount 64
  have hamtdec : bytesFromhex ((List.replicate (64 - (natHexBE amount).length) 0 ++
      natHexBE amount).map hexDigitChar) =
      some (pairBytes (List.replicate (64 - (natHexBE amount).length) 0 ++
        natHexBE amount)) :=
    bytesFromhex_map_hexDigitChar _ hds_all (by rw [hds_len])
  have hamtlen : (pairBytes (List.replicate (64 - (natHexBE amount).length) 0 ++
      natHexBE amount)).length = 32 := by
    rw [pairBytes_length _ (by rw [hds_len]), hds_len]
  have hamtlt : ∀ b ∈ pairBytes (List.replicate (64 - (natHexBE amount).length) 0 ++
      natHexBE amount), b < 256 := pairBytes_lt _ hds_all
  have hamtval : beNat (pairBytes (List.replicate (64 - (natHexBE amount).length) 0 ++
      natHexBE amount)) = amount := by
    rw [beNat_pairBytes _ (by rw [hds_len]), hexValBE_replicate_zero_append,
      hexValBE_natHexBE]
  have hlower_hex : ∀ c ∈ t.map asciiLower, (hexDigitVal c).isSome = true := by
    intro c hc
    obtain ⟨c0, hc0, rfl⟩ := List.mem_map.1 hc
    rw [hexDigitVal_asciiLower]
    exact hhex c0 hc0
  obtain ⟨ab, hab, habapp, hablen, hablt, habval⟩ :=
    bytesFromhex_hexrun (t.map asciiLower)
      ((List.replicate (64 - (natHexBE amount).length) 0 ++ natHexBE amount).map
        hexDigitChar)
      hlower_hex (by rw [List.length_map, hlen])
  obtain ⟨z, hz, hzapp, hzlen, hzlt, hzval⟩ :=
    bytesFromhex_hexrun (List.replicate 24 '0')
      (t.map asciiLower ++
        (List.replicate (64 - (natHexBE amount).length) 0 ++ natHexBE amount).map
          hexDigitChar)
      (by
        intro c hc
        rw [List.eq_of_mem_replicate hc]
        decide)
      (by simp)
  obtain ⟨sel, hsel, hselapp, hsellen, hsellt, hselval⟩ :=
    bytesFromhex_hexrun ("a9059cbb".toList)
      (List.replicate 24 '0' ++
        (t.map asciiLower ++
          (List.replicate (64 - (natHexBE amount).length) 0 ++ natHexBE amount).map
            hexDigitChar))
      (by decide) (by decide)
  have hz12 : z = List.replicate 12 0 := by
    have hconc : bytesFromhex (List.replicate 24 '0') =
        some (List.replicate 12 0) := by decide
    have := hz.symm.trans hconc
    simpa using this
  have hsel4 : sel = [0xa9, 0x05, 0x9c, 0xbb] := by
    have hconc : bytesFromhex ("a9059cbb".toList) =
        some [0xa9, 0x05, 0x9c, 0xbb] := by decide
    have := hsel.symm.trans hconc
    simpa using this
  have hzfill_to : zfill 64 (t.map asciiLower) =
      List.replicate 24 '0' ++ t.map asciiLower := by
    unfold zfill
    rw [List.length_map, hlen]
  have hfull : bytesFromhex ("a9059cbb".toList ++
      zfill 64 ((('0' :: 'x' :: t).drop 2).map asciiLower) ++
      zfill 64 (pyHexStr amount)) =
      some (sel ++ (z ++ (ab ++ pairBytes
        (List.replicate (64 - (natHexBE amount).length) 0 ++ natHexBE amount)))) := by
    rw [show ('0' :: 'x' :: t).drop 2 = t from rfl, hzfill_to, hpadamt]
    simp only [List.append_assoc]
    rw [hselapp, hzapp, habapp, hamtdec]
    rfl
  refine ⟨⟨2, chainId, nonce, token, 0, gas, mf, mp,
      sel ++ (z ++ (ab ++ pairBytes
        (List.replicate (64 - (natHexBE amount).length) 0 ++ natHexBE amount)))⟩,
    ab, pairBytes (List.replicate (64 - (natHexBE amount).length) 0 ++ natHexBE amount),
    ?_, hab, ?_, ?_, hamtlen, hamtval, hamtlt, rfl⟩
  · unfold create_erc20_transfer
    simp only []
    rw [hfull]
  · simp only [hsel4, hz12, List.append_assoc]
  · rw [hablen, List.length_map, hlen]

/-- C9 witness: a concrete recipient and amount produce the selector,
padded address and 32-byte big-endian amount. -/
theorem C9_erc20_witness :
    ∃ tx ab amt,
      create_erc20_transfer 8453 ("0xtok".toList)
          ('0' :: 'x' :: List.replicate 40 'a') 1000 1 2 3 65000 = some tx ∧
      bytesFromhex ((List.replicate 40 'a').map asciiLower) = some ab ∧
      tx.data = [0xa9, 0x05, 0x9c, 0xbb] ++ (List.replicate 12 0 ++ ab) ++ amt ∧
      ab.length = 20 ∧ amt.length = 32 ∧ beNat amt = 1000 ∧
      (∀ b ∈ amt, b < 256) ∧ tx.value = 0 :=
  C9_erc20_encoding 8453 ("0xtok".toList) (List.replicate 40 'a') 1000 1 2 3 65000
    (by decide) (by decide) (by norm_num)

end Coldstar
